import Mathlib

/-!
Shallow embedding of the InkWeaver application core: the Gemini service layer
(model-fallback streaming, error classification), the local-storage session
CRUD layer, and the chat-transcript accumulation logic of the React app.
Each definition is translated from the corresponding TypeScript source.
-/

namespace InkWeaver

/-! ### String containment (model of JavaScript `String.prototype.includes`) -/

/-- Does the second list start with the first one (character-wise)? -/
def startsWithL : List Char → List Char → Bool
  | [], _ => true
  | _ :: _, [] => false
  | a :: as, b :: bs => (a == b) && startsWithL as bs

/-- Does the second list contain the first as a contiguous sublist? -/
def hasSubL (sub : List Char) : List Char → Bool
  | [] => sub.isEmpty
  | c :: rest => startsWithL sub (c :: rest) || hasSubL sub rest

/-- Model of JavaScript `s.includes(sub)`. -/
def strIncludes (s sub : String) : Bool :=
  hasSubL sub.toList s.toList

/-- `sub` occurs contiguously inside `s` (specification-level statement). -/
def SubstrOf (sub s : String) : Prop :=
  ∃ p q : String, s = p ++ sub ++ q

/-! ### Data model (src types) -/

/-- A grounding web source: `{ uri, title }`. -/
structure WebSource where
  uri : String
  title : String
deriving DecidableEq

/-- One entry of `groundingMetadata.groundingChunks`; `.web` may be absent. -/
structure GroundingChunk where
  web : Option WebSource
deriving DecidableEq

/-- A streamed chunk from the Gemini API: its text (empty models a missing or
empty `chunk.text`) and the optional grounding-chunk list. -/
structure Chunk where
  text : String
  groundingChunks : Option (List GroundingChunk)
deriving DecidableEq

/-- A JavaScript error value, abstracted by the pieces the service reads:
`toString()`, whether `typeof error === 'object'`, `JSON.stringify(error)`,
and the optional `.message` property. -/
structure JsError where
  toStr : String
  isObject : Bool
  jsonStr : String
  message : Option String
deriving DecidableEq

/-- JavaScript `x || d` for an optional string `x`: `undefined` and `""` are falsy. -/
def jsOr (x : Option String) (d : String) : String :=
  match x with
  | none => d
  | some m => if m.isEmpty then d else m

/-- `enum Role` from types.ts. -/
inductive Role where
  | user
  | model
  | system
deriving DecidableEq

/-- `enum AppMode` from types.ts. -/
inductive AppMode where
  | chat
  | story
  | research
  | character
deriving DecidableEq

/-- `interface Message` from types.ts. -/
structure Message where
  id : String
  role : Role
  content : String
  isStreaming : Bool := false
  isError : Bool := false
  groundingSources : List WebSource := []
deriving DecidableEq

/-- `interface StorySettings` from types.ts (`creativityLevel` is a JS number,
modelled as a rational; no arithmetic is ever performed on it). -/
structure StorySettings where
  genre : String
  tone : String
  pov : String
  creativityLevel : Rat
deriving DecidableEq

/-- `interface ChatSession` from types.ts (`updatedAt` is a `Date.now()`
millisecond timestamp, a natural number). -/
structure ChatSession where
  id : String
  title : String
  messages : List Message
  mode : AppMode
  settings : StorySettings
  updatedAt : Nat
  preview : String
deriving DecidableEq

/-! ### geminiService: error classification -/

/-- `getFriendlyErrorMessage` from geminiService.ts: builds
`msg = error.toString() + (typeof error === 'object' ? JSON.stringify(error) : '')`
and walks a fixed chain of substring checks. -/
def getFriendlyErrorMessage (error : JsError) : String :=
  let msg := error.toStr ++ (if error.isObject then error.jsonStr else "")
  if strIncludes msg "process is not defined" then
    "[System Error: Configuration failed. The API Key was not injected correctly during build. Please check vite.config.ts.]"
  else if strIncludes msg "403" || strIncludes msg "PERMISSION_DENIED" then
    "[System Error: Access Denied. Your API key may not have access to the selected model. Check your project permissions.]"
  else if strIncludes msg "429" || strIncludes msg "RESOURCE_EXHAUSTED" then
    "[System Error: Quota Exceeded. You are strictly rate-limited.]"
  else if strIncludes msg "Safety" then
    "[System: The generated content triggered safety filters. Please adjust the prompt.]"
  else if strIncludes msg "API_KEY" then
    "[System Error: Invalid API Key. Please check your Vercel Environment Variables.]"
  else
    "[System Error: " ++ jsOr error.message "An unexpected error occurred." ++ "]"

/-- The string the retry loop inspects: `error.toString() + JSON.stringify(error)`. -/
def errStrOf (error : JsError) : String :=
  error.toStr ++ error.jsonStr

/-- The recoverability test of `streamResponse`'s catch block. -/
def isRecoverable (errStr : String) : Bool :=
  strIncludes errStr "403" ||
  strIncludes errStr "429" ||
  strIncludes errStr "503" ||
  strIncludes errStr "not found" ||
  strIncludes errStr "PERMISSION_DENIED" ||
  strIncludes errStr "RESOURCE_EXHAUSTED"

/-! ### geminiService: stream processing -/

/-- One observable callback fired while streaming: an `onChunk(text)` call or an
`onSources(sources)` call. -/
inductive StreamEvent where
  | chunkText (t : String)
  | sources (ss : List WebSource)
deriving DecidableEq

/-- The `.map(c => c.web).filter(w => w && w.uri && w.title)` pipeline of
`processStream`. -/
def extractSources (gcs : List GroundingChunk) : List WebSource :=
  (gcs.filterMap (fun c => c.web)).filter (fun w => !w.uri.isEmpty && !w.title.isEmpty)

/-- `processStream` from geminiService.ts, as the list of callbacks it fires,
in order, over the chunk sequence of a completed stream. -/
def processStream : List Chunk → List StreamEvent
  | [] => []
  | c :: rest =>
    (if !c.text.isEmpty then [StreamEvent.chunkText c.text] else []) ++
    (match c.groundingChunks with
     | some gcs =>
       let ss := extractSources gcs
       if ss.length > 0 then [StreamEvent.sources ss] else []
     | none => []) ++
    processStream rest

/-! ### geminiService: streamResponse fallback loop -/

/-- The hardcoded model fallback chain of `streamResponse`. -/
def modelsToTry : List String :=
  ["gemini-3-pro-preview", "gemini-3-flash-preview", "gemini-2.5-flash-latest"]

/-- Outcome of attempting one model: either the stream completes with these
chunks, or the attempt throws this error. The `try` block wraps
`processStream`, so a throw may happen mid-stream: `streamed` is the list of
chunks already consumed (and hence already delivered through the callbacks)
before the throw; it is empty when `chat.sendMessageStream` itself throws. -/
inductive AttemptResult where
  | success (chunks : List Chunk)
  | failure (streamed : List Chunk) (error : JsError)
deriving DecidableEq

/-- The callback events one attempt fires before control leaves the `try`
block: the processed stream on success, the processed stream prefix consumed
before the throw on failure. -/
def attemptOutput : AttemptResult → List StreamEvent
  | AttemptResult.success chunks => processStream chunks
  | AttemptResult.failure streamed _ => processStream streamed

/-- Observable result of a `streamResponse` call: the models attempted, in
order, and the callback events fired. -/
structure StreamRun where
  attempted : List String
  events : List StreamEvent
deriving DecidableEq

/-- The final `getFriendlyErrorMessage(lastError)` call; `lastError` is `null`
only when the model list was empty, which never happens for `modelsToTry`. -/
def friendlyOpt : Option JsError → String
  | some e => getFriendlyErrorMessage e
  | none => getFriendlyErrorMessage ⟨"null", false, "null", none⟩

/-- The `for (const modelName of modelsToTry)` loop of `streamResponse`,
parametrised by the environment `env` giving each model's outcome. A failed
attempt has already fired the callbacks for its consumed stream prefix, so
those events precede whatever the loop does next (the friendly error message
is emitted with a leading `\n\n` to follow such prior output). -/
def tryModels (env : String → AttemptResult) : List String → Option JsError → StreamRun
  | [], lastError =>
    { attempted := [], events := [StreamEvent.chunkText ("\n\n" ++ friendlyOpt lastError)] }
  | m :: rest, _lastError =>
    match env m with
    | AttemptResult.success chunks =>
      { attempted := [m], events := processStream chunks }
    | AttemptResult.failure streamed e =>
      if isRecoverable (errStrOf e) then
        let r := tryModels env rest (some e)
        { attempted := m :: r.attempted, events := processStream streamed ++ r.events }
      else
        { attempted := [m],
          events := processStream streamed
            ++ [StreamEvent.chunkText ("\n\n" ++ getFriendlyErrorMessage e)] }

/-- `streamResponse` from geminiService.ts (its observable attempt/callback
behaviour; prompt assembly does not affect the claims). -/
def streamResponse (env : String → AttemptResult) : StreamRun :=
  tryModels env modelsToTry none

/-! ### storageService -/

/-- `getSessions` from storageService.ts: `stored` is the value under the key
`'inkweaver_sessions'` (`none` when absent), `parse` models `JSON.parse`
returning a `ChatSession[]` (`none` when it throws or yields a non-array).
An empty stored string is falsy, so the ternary returns `[]` for it. -/
def getSessions (parse : String → Option (List ChatSession))
    (stored : Option String) : List ChatSession :=
  match stored with
  | none => []
  | some str => if str.isEmpty then [] else (parse str).getD []

/-- `sessions[index] = session` after `findIndex(s => s.id === session.id)`:
replace the first entry whose id matches. -/
def replaceFirst : List ChatSession → ChatSession → List ChatSession
  | [], _ => []
  | t :: ts, s => if t.id == s.id then s :: ts else t :: replaceFirst ts s

/-- The findIndex/replace-or-unshift step of `saveSession`. -/
def upsert (store : List ChatSession) (s : ChatSession) : List ChatSession :=
  if store.any (fun t => t.id == s.id) then replaceFirst store s else s :: store

/-- The order of the comparator `(a, b) => b.updatedAt - a.updatedAt`:
`a` may precede `b` when the comparator is non-positive. -/
def newerEq (a b : ChatSession) : Prop := b.updatedAt ≤ a.updatedAt

instance : DecidableRel newerEq := fun a b => Nat.decLe b.updatedAt a.updatedAt

instance : IsTotal ChatSession newerEq := ⟨fun a b => Nat.le_total b.updatedAt a.updatedAt⟩

instance : IsTrans ChatSession newerEq :=
  ⟨fun _ _ _ hab hbc => Nat.le_trans hbc hab⟩

/-- `sessions.sort((a, b) => b.updatedAt - a.updatedAt)`: a stable sort putting
newest first (JavaScript `Array.prototype.sort` is stable; a stable sort under
a fixed comparator is unique, so stable insertion sort models it exactly). -/
def sortByNewest (l : List ChatSession) : List ChatSession :=
  List.insertionSort newerEq l

/-- `saveSession` from storageService.ts, as a function of the previously
stored list: upsert, sort newest first, trim to 50; the trimmed list is both
written back to local storage and returned. -/
def saveSession (store : List ChatSession) (session : ChatSession) : List ChatSession :=
  (sortByNewest (upsert store session)).take 50

/-- `deleteSession` from storageService.ts: keep the sessions whose id differs. -/
def deleteSession (store : List ChatSession) (sessionId : String) : List ChatSession :=
  store.filter (fun s => s.id != sessionId)

/-- `getSessionById` from storageService.ts. -/
def getSessionById (store : List ChatSession) (sessionId : String) : Option ChatSession :=
  store.find? (fun s => s.id == sessionId)

/-! ### App.tsx: transcript accumulation in processResponse -/

/-- The `onChunk` callback of `processResponse`: append the chunk to the
accumulated text and set the placeholder bot message's content to it. -/
def applyChunk (botMsgId : String) (acc : String) (ms : List Message)
    (textChunk : String) : String × List Message :=
  let acc2 := acc ++ textChunk
  (acc2, ms.map (fun m => if m.id == botMsgId then { m with content := acc2 } else m))

/-- Fold `applyChunk` over a list of chunk texts, threading the accumulator. -/
def runOnChunksAux (botMsgId : String) (acc : String) :
    List String → List Message → List Message
  | [], ms => ms
  | t :: ts, ms =>
    let p := applyChunk botMsgId acc ms t
    runOnChunksAux botMsgId p.1 ts p.2

/-- The message-list transformation performed by `processResponse`'s `onChunk`
callback over a whole stream (accumulator starts at `''`). -/
def runOnChunks (botMsgId : String) (texts : List String) (ms : List Message) :
    List Message :=
  runOnChunksAux botMsgId "" texts ms

/-- The arguments of the `onChunk` calls among a list of stream events. -/
def onChunkTexts : List StreamEvent → List String
  | [] => []
  | StreamEvent.chunkText t :: rest => t :: onChunkTexts rest
  | StreamEvent.sources _ :: rest => onChunkTexts rest

/-- Concatenation of a list of strings, in order. -/
def concatAll : List String → String
  | [] => ""
  | t :: ts => t ++ concatAll ts

/-! ### Correctness of the substring test -/

theorem startsWithL_iff (sub l : List Char) :
    startsWithL sub l = true ↔ ∃ q, l = sub ++ q := by
  induction sub generalizing l with
  | nil =>
    simp [startsWithL]
  | cons a as ih =>
    cases l with
    | nil =>
      simp [startsWithL]
    | cons b bs =>
      simp only [startsWithL, Bool.and_eq_true, beq_iff_eq, ih, List.cons_append,
        List.cons.injEq]
      constructor
      · rintro ⟨rfl, q, rfl⟩
        exact ⟨q, rfl, rfl⟩
      · rintro ⟨q, rfl, rfl⟩
        exact ⟨rfl, q, rfl⟩

theorem hasSubL_iff (sub l : List Char) :
    hasSubL sub l = true ↔ ∃ p q, l = p ++ sub ++ q := by
  induction l with
  | nil =>
    simp only [hasSubL, List.isEmpty_iff]
    constructor
    · rintro rfl
      exact ⟨[], [], rfl⟩
    · rintro ⟨p, q, h⟩
      rcases List.append_eq_nil.mp h.symm with ⟨h1, rfl⟩
      exact (List.append_eq_nil.mp h1).2
  | cons c rest ih =>
    simp only [hasSubL, Bool.or_eq_true, startsWithL_iff, ih]
    constructor
    · rintro (⟨q, h⟩ | ⟨p, q, h⟩)
      · exact ⟨[], q, by simpa using h⟩
      · exact ⟨c :: p, q, by simp [h]⟩
    · rintro ⟨p, q, h⟩
      cases p with
      | nil =>
        exact Or.inl ⟨q, by simpa using h⟩
      | cons x xs =>
        simp only [List.cons_append, List.cons.injEq] at h
        exact Or.inr ⟨xs, q, h.2⟩

theorem strIncludes_iff (s sub : String) :
    strIncludes s sub = true ↔ SubstrOf sub s := by
  simp only [strIncludes, SubstrOf, hasSubL_iff, String.toList]
  constructor
  · rintro ⟨p, q, h⟩
    refine ⟨⟨p⟩, ⟨q⟩, String.ext ?_⟩
    simpa using h
  · rintro ⟨p, q, rfl⟩
    exact ⟨p.data, q.data, by simp⟩

/-! ### The fallback loop: general lemmas about `tryModels` -/

/-! ### The fallback loop: general lemmas about `tryModels` -/

theorem tryModels_attempted_take (env : String → AttemptResult) (models : List String) :
    ∀ le0 : Option JsError,
      (tryModels env models le0).attempted
        = models.take (tryModels env models le0).attempted.length := by
  induction models with
  | nil =>
    intro le0
    simp [tryModels]
  | cons m rest ih =>
    intro le0
    cases henv : env m with
    | success chunks =>
      simp [tryModels, henv]
    | failure streamed e =>
      cases hrec : isRecoverable (errStrOf e) with
      | false =>
        simp [tryModels, henv, hrec]
      | true =>
        simp only [tryModels, henv, hrec, if_true, List.length_cons,
          List.take_succ_cons, List.cons.injEq, true_and]
        exact ih (some e)

theorem tryModels_earlier_recoverable (env : String → AttemptResult)
    (models : List String) :
    ∀ (le0 : Option JsError) (i : Nat),
      i + 1 < (tryModels env models le0).attempted.length →
      ∃ streamed e, env (models.getD i "") = AttemptResult.failure streamed e
        ∧ isRecoverable (errStrOf e) = true := by
  induction models with
  | nil =>
    intro le0 i h
    simp [tryModels] at h
  | cons m rest ih =>
    intro le0 i h
    cases henv : env m with
    | success chunks =>
      simp only [tryModels, henv, List.length_cons, List.length_nil] at h
      omega
    | failure streamed e =>
      cases hrec : isRecoverable (errStrOf e) with
      | false =>
        simp only [tryModels, henv, hrec, Bool.false_eq_true, if_false,
          List.length_cons, List.length_nil] at h
        omega
      | true =>
        simp only [tryModels, henv, hrec, if_true, List.length_cons] at h
        cases i with
        | zero =>
          exact ⟨streamed, e, henv, hrec⟩
        | succ j =>
          simpa using ih (some e) j (by omega)

theorem tryModels_success_stops (env : String → AttemptResult)
    (models : List String) :
    ∀ (le0 : Option JsError) (i : Nat) (cs : List Chunk),
      i < (tryModels env models le0).attempted.length →
      env (models.getD i "") = AttemptResult.success cs →
      (tryModels env models le0).attempted.length = i + 1 := by
  induction models with
  | nil =>
    intro le0 i cs h _
    simp [tryModels] at h
  | cons m rest ih =>
    intro le0 i cs h hsucc
    cases henv : env m with
    | success chunks =>
      simp only [tryModels, henv, List.length_cons, List.length_nil] at h ⊢
      omega
    | failure streamed e =>
      cases hrec : isRecoverable (errStrOf e) with
      | false =>
        simp only [tryModels, henv, hrec, Bool.false_eq_true, if_false,
          List.length_cons, List.length_nil] at h ⊢
        omega
      | true =>
        simp only [tryModels, henv, hrec, if_true, List.length_cons] at h ⊢
        cases i with
        | zero =>
          rw [List.getD_cons_zero, henv] at hsucc
          cases hsucc
        | succ j =>
          rw [List.getD_cons_succ] at hsucc
          have := ih (some e) j cs (by omega) hsucc
          omega

theorem tryModels_nonrecoverable_stops (env : String → AttemptResult)
    (models : List String) :
    ∀ (le0 : Option JsError) (i : Nat) (streamed : List Chunk) (e : JsError),
      i < (tryModels env models le0).attempted.length →
      env (models.getD i "") = AttemptResult.failure streamed e →
      isRecoverable (errStrOf e) = false →
      (tryModels env models le0).attempted.length = i + 1
      ∧ (tryModels env models le0).events
          = ((tryModels env models le0).attempted.map
              (fun m => attemptOutput (env m))).flatten
            ++ [StreamEvent.chunkText ("\n\n" ++ getFriendlyErrorMessage e)] := by
  induction models with
  | nil =>
    intro le0 i streamed e h _ _
    simp [tryModels] at h
  | cons m rest ih =>
    intro le0 i streamed e h hfail hrec0
    cases henv : env m with
    | success chunks =>
      simp only [tryModels, henv, List.length_cons, List.length_nil] at h
      have hi : i = 0 := by omega
      subst hi
      rw [List.getD_cons_zero, henv] at hfail
      cases hfail
    | failure streamed' e' =>
      cases hrec : isRecoverable (errStrOf e') with
      | false =>
        simp only [tryModels, henv, hrec, Bool.false_eq_true, if_false,
          List.length_cons, List.length_nil] at h ⊢
        cases i with
        | zero =>
          rw [List.getD_cons_zero, henv] at hfail
          cases hfail
          refine ⟨rfl, ?_⟩
          simp [attemptOutput, henv]
        | succ j =>
          omega
      | true =>
        simp only [tryModels, henv, hrec, if_true, List.length_cons] at h ⊢
        cases i with
        | zero =>
          rw [List.getD_cons_zero, henv] at hfail
          cases hfail
          rw [hrec0] at hrec
          cases hrec
        | succ j =>
          rw [List.getD_cons_succ] at hfail
          have hres := ih (some e') j streamed e (by omega) hfail hrec0
          refine ⟨by omega, ?_⟩
          rw [hres.2]
          simp [attemptOutput, henv, List.append_assoc]

/-- The six error-message substrings that make a model failure recoverable. -/
def recoverableMarkers : List String :=
  ["403", "429", "503", "not found", "PERMISSION_DENIED", "RESOURCE_EXHAUSTED"]

theorem isRecoverable_iff (s : String) :
    isRecoverable s = true ↔ ∃ sub ∈ recoverableMarkers, SubstrOf sub s := by
  simp only [isRecoverable, Bool.or_eq_true, strIncludes_iff, recoverableMarkers,
    List.mem_cons, List.not_mem_nil, or_false, exists_eq_or_imp, exists_eq_left]
  tauto

/-! ### Example environments used by the witnesses -/

/-- A rate-limit failure (recoverable: its string contains `429`). -/
def errQuota : JsError :=
  ⟨"Error: 429 RESOURCE_EXHAUSTED", true, "error: quota", some "quota"⟩

/-- A fatal failure (none of the six recoverable markers occurs). -/
def errFatal : JsError :=
  ⟨"TypeError: bad request schema", true, "error: schema", some "bad request schema"⟩

/-- A one-chunk successful stream. -/
def chunkHello : Chunk := ⟨"Hello", none⟩

/-- A chunk delivered before a mid-stream throw. -/
def chunkPart : Chunk := ⟨"Once upon a", none⟩

/-- The first model is rate-limited before streaming anything, every other
model streams successfully. -/
def envFlashSucceeds : String → AttemptResult := fun m =>
  if m = "gemini-3-pro-preview" then AttemptResult.failure [] errQuota
  else AttemptResult.success [chunkHello]

/-- Every model streams one chunk and then throws the fatal (non-recoverable)
error mid-stream. -/
def envFatal : String → AttemptResult := fun _ =>
  AttemptResult.failure [chunkPart] errFatal

/-! ### Claims C1 and C2 -/

/-- C1: `streamResponse` attempts the models of the hardcoded chain
`['gemini-3-pro-preview', 'gemini-3-flash-preview', 'gemini-2.5-flash-latest']`
sequentially: the attempted list is an initial segment of `modelsToTry`; every
model before the last attempted one failed with a recoverable error; and as
soon as a model's stream completes successfully the function returns, so no
further model is attempted. -/
theorem streamResponse_fallback_chain (env : String → AttemptResult) :
    ((streamResponse env).attempted
        = modelsToTry.take (streamResponse env).attempted.length)
    ∧ (∀ i, i + 1 < (streamResponse env).attempted.length →
        ∃ streamed e, env (modelsToTry.getD i "") = AttemptResult.failure streamed e
          ∧ isRecoverable (errStrOf e) = true)
    ∧ (∀ i cs, i < (streamResponse env).attempted.length →
        env (modelsToTry.getD i "") = AttemptResult.success cs →
        (streamResponse env).attempted.length = i + 1) :=
  ⟨tryModels_attempted_take env modelsToTry none,
   fun i h => tryModels_earlier_recoverable env modelsToTry none i h,
   fun i cs h hs => tryModels_success_stops env modelsToTry none i cs h hs⟩

/-- Witness for C1 at a concrete environment: the first model fails with a
`429` error, the second succeeds, so exactly two models are attempted. -/
theorem streamResponse_fallback_chain_witness :
    (streamResponse envFlashSucceeds).attempted.length = 1 + 1 :=
  (streamResponse_fallback_chain envFlashSucceeds).2.2 1 [chunkHello]
    (by decide) (by decide)

/-- C2: a failure is recoverable (retrying with the next model) iff the
string representation of the error contains one of `403`, `429`, `503`,
`not found`, `PERMISSION_DENIED`, `RESOURCE_EXHAUSTED`; and when an attempted
model fails non-recoverably, `streamResponse` stops there — no further model
is attempted — and its events are exactly the output already streamed by the
attempted models followed by one final `onChunk` call delivering the friendly
error message (prefixed by a blank line to follow any prior stream output). -/
theorem streamResponse_nonrecoverable_immediate (env : String → AttemptResult) :
    (∀ s : String, isRecoverable s = true ↔ ∃ sub ∈ recoverableMarkers, SubstrOf sub s)
    ∧ (∀ i streamed e, i < (streamResponse env).attempted.length →
        env (modelsToTry.getD i "") = AttemptResult.failure streamed e →
        isRecoverable (errStrOf e) = false →
        (streamResponse env).attempted.length = i + 1
        ∧ (streamResponse env).events
            = ((streamResponse env).attempted.map
                (fun m => attemptOutput (env m))).flatten
              ++ [StreamEvent.chunkText ("\n\n" ++ getFriendlyErrorMessage e)]) :=
  ⟨isRecoverable_iff,
   fun i streamed e h hf hr =>
     tryModels_nonrecoverable_stops env modelsToTry none i streamed e h hf hr⟩

/-- Witness for C2 at a concrete environment: every model streams one chunk
and then throws a fatal error, so only the first model is attempted and the
events are that streamed output followed by the friendly error message. -/
theorem streamResponse_nonrecoverable_immediate_witness :
    (streamResponse envFatal).attempted.length = 0 + 1
    ∧ (streamResponse envFatal).events
        = ((streamResponse envFatal).attempted.map
            (fun m => attemptOutput (envFatal m))).flatten
          ++ [StreamEvent.chunkText ("\n\n" ++ getFriendlyErrorMessage errFatal)] :=
  (streamResponse_nonrecoverable_immediate envFatal).2 0 [chunkPart] errFatal
    (by decide) (by decide) (by decide)

/-! ### Claim C7: priority order of getFriendlyErrorMessage -/

/-- The string `getFriendlyErrorMessage` inspects:
`error.toString() + (typeof error === 'object' ? JSON.stringify(error) : '')`. -/
def friendlyMsgInput (error : JsError) : String :=
  error.toStr ++ (if error.isObject then error.jsonStr else "")

/-- The message matches one of a check's marker substrings. -/
def MatchesCheck (msg : String) (markers : List String) : Prop :=
  ∃ sub ∈ markers, SubstrOf sub msg

theorem matchesCheck_iff (msg : String) (markers : List String) :
    MatchesCheck msg markers ↔ markers.any (fun sub => strIncludes msg sub) = true := by
  simp [MatchesCheck, List.any_eq_true, strIncludes_iff]

/-- C7: `getFriendlyErrorMessage` applies its substring checks to the error's
string representation in the fixed priority order `process is not defined`,
then `403`/`PERMISSION_DENIED`, then `429`/`RESOURCE_EXHAUSTED`, then
`Safety`, then `API_KEY`, returning the fixed message of the first matching
check; when no check matches it returns a generic `[System Error: ...]`
message. In particular an error matching two checks yields the earlier
check's message. -/
theorem getFriendlyErrorMessage_priority (error : JsError) :
    (MatchesCheck (friendlyMsgInput error) ["process is not defined"] →
      getFriendlyErrorMessage error =
        "[System Error: Configuration failed. The API Key was not injected correctly during build. Please check vite.config.ts.]")
    ∧ (¬ MatchesCheck (friendlyMsgInput error) ["process is not defined"] →
       MatchesCheck (friendlyMsgInput error) ["403", "PERMISSION_DENIED"] →
      getFriendlyErrorMessage error =
        "[System Error: Access Denied. Your API key may not have access to the selected model. Check your project permissions.]")
    ∧ (¬ MatchesCheck (friendlyMsgInput error) ["process is not defined"] →
       ¬ MatchesCheck (friendlyMsgInput error) ["403", "PERMISSION_DENIED"] →
       MatchesCheck (friendlyMsgInput error) ["429", "RESOURCE_EXHAUSTED"] →
      getFriendlyErrorMessage error =
        "[System Error: Quota Exceeded. You are strictly rate-limited.]")
    ∧ (¬ MatchesCheck (friendlyMsgInput error) ["process is not defined"] →
       ¬ MatchesCheck (friendlyMsgInput error) ["403", "PERMISSION_DENIED"] →
       ¬ MatchesCheck (friendlyMsgInput error) ["429", "RESOURCE_EXHAUSTED"] →
       MatchesCheck (friendlyMsgInput error) ["Safety"] →
      getFriendlyErrorMessage error =
        "[System: The generated content triggered safety filters. Please adjust the prompt.]")
    ∧ (¬ MatchesCheck (friendlyMsgInput error) ["process is not defined"] →
       ¬ MatchesCheck (friendlyMsgInput error) ["403", "PERMISSION_DENIED"] →
       ¬ MatchesCheck (friendlyMsgInput error) ["429", "RESOURCE_EXHAUSTED"] →
       ¬ MatchesCheck (friendlyMsgInput error) ["Safety"] →
       MatchesCheck (friendlyMsgInput error) ["API_KEY"] →
      getFriendlyErrorMessage error =
        "[System Error: Invalid API Key. Please check your Vercel Environment Variables.]")
    ∧ (¬ MatchesCheck (friendlyMsgInput error) ["process is not defined"] →
       ¬ MatchesCheck (friendlyMsgInput error) ["403", "PERMISSION_DENIED"] →
       ¬ MatchesCheck (friendlyMsgInput error) ["429", "RESOURCE_EXHAUSTED"] →
       ¬ MatchesCheck (friendlyMsgInput error) ["Safety"] →
       ¬ MatchesCheck (friendlyMsgInput error) ["API_KEY"] →
      ∃ rest, getFriendlyErrorMessage error = "[System Error: " ++ rest ++ "]") := by
  simp only [matchesCheck_iff, List.any_cons, List.any_nil, Bool.or_false,
    Bool.or_eq_true, friendlyMsgInput, not_or]
  refine ⟨?_, ?_, ?_, ?_, ?_, ?_⟩
  · intro h1
    simp [getFriendlyErrorMessage, h1]
  · intro h1 h2
    simp only [Bool.not_eq_true] at h1
    rcases h2 with h2 | h2 <;> simp [getFriendlyErrorMessage, h1, h2]
  · intro h1 h2 h3
    simp only [Bool.not_eq_true, not_or] at h1 h2
    rcases h3 with h3 | h3 <;>
      simp [getFriendlyErrorMessage, h1, h2.1, h2.2, h3]
  · intro h1 h2 h3 h4
    simp only [Bool.not_eq_true, not_or] at h1 h2 h3
    simp [getFriendlyErrorMessage, h1, h2.1, h2.2, h3.1, h3.2, h4]
  · intro h1 h2 h3 h4 h5
    simp only [Bool.not_eq_true, not_or] at h1 h2 h3 h4
    simp [getFriendlyErrorMessage, h1, h2.1, h2.2, h3.1, h3.2, h4, h5]
  · intro h1 h2 h3 h4 h5
    simp only [Bool.not_eq_true, not_or] at h1 h2 h3 h4 h5
    exact ⟨jsOr error.message "An unexpected error occurred.",
      by simp [getFriendlyErrorMessage, h1, h2.1, h2.2, h3.1, h3.2, h4, h5]⟩

/-- An error whose string representation contains both `403` (second check)
and `429` (third check). -/
def err403and429 : JsError :=
  ⟨"Error: got 403 and then 429", true, "error: denied", some "denied"⟩

/-- Witness for C7: an error matching both the `403` check and the `429`
check yields the earlier (Access Denied) message. -/
theorem getFriendlyErrorMessage_priority_witness :
    getFriendlyErrorMessage err403and429 =
      "[System Error: Access Denied. Your API key may not have access to the selected model. Check your project permissions.]" :=
  (getFriendlyErrorMessage_priority err403and429).2.1
    (fun h => absurd ((matchesCheck_iff _ _).mp h) (by decide))
    ((matchesCheck_iff _ _).mpr (by decide))

/-! ### Claim C5: chunk accumulation into the transcript -/

theorem onChunkTexts_append (evs1 evs2 : List StreamEvent) :
    onChunkTexts (evs1 ++ evs2) = onChunkTexts evs1 ++ onChunkTexts evs2 := by
  induction evs1 with
  | nil => rfl
  | cons e rest ih =>
    cases e with
    | chunkText t => simp [onChunkTexts, ih]
    | sources ss => simp [onChunkTexts, ih]

/-- `processStream` fires `onChunk` exactly once per chunk with non-empty
text, with that chunk's text, in arrival order. -/
theorem onChunkTexts_processStream (stream : List Chunk) :
    onChunkTexts (processStream stream)
      = (stream.filter (fun c => !c.text.isEmpty)).map Chunk.text := by
  induction stream with
  | nil => rfl
  | cons c rest ih =>
    simp only [processStream, onChunkTexts_append]
    cases ht : c.text.isEmpty with
    | true =>
      cases hg : c.groundingChunks with
      | none => simp [onChunkTexts, List.filter_cons, ht, hg, ih]
      | some gcs =>
        cases hlen : decide ((extractSources gcs).length > 0) with
        | true =>
          simp only [ht, hg, Bool.not_true, if_false, List.nil_append]
          rw [List.filter_cons_of_neg (by simp [ht])]
          simp only [decide_eq_true_eq] at hlen
          simp [onChunkTexts, if_pos hlen, ih]
        | false =>
          simp only [ht, hg, Bool.not_true, if_false, List.nil_append]
          rw [List.filter_cons_of_neg (by simp [ht])]
          simp only [decide_eq_false_iff_not] at hlen
          simp [onChunkTexts, if_neg hlen, ih]
    | false =>
      cases hg : c.groundingChunks with
      | none =>
        rw [List.filter_cons_of_pos (by simp [ht])]
        simp [onChunkTexts, ht, hg, ih]
      | some gcs =>
        cases hlen : decide ((extractSources gcs).length > 0) with
        | true =>
          rw [List.filter_cons_of_pos (by simp [ht])]
          simp only [decide_eq_true_eq] at hlen
          simp [onChunkTexts, onChunkTexts_append, ht, hg, if_pos hlen, ih]
        | false =>
          rw [List.filter_cons_of_pos (by simp [ht])]
          simp only [decide_eq_false_iff_not] at hlen
          simp [onChunkTexts, onChunkTexts_append, ht, hg, if_neg hlen, ih]

theorem map_update_eq_self (botMsgId acc : String) (ms : List Message)
    (h : ∀ m ∈ ms, m.id = botMsgId → m.content = acc) :
    ms.map (fun m => if m.id == botMsgId then { m with content := acc } else m) = ms := by
  induction ms with
  | nil => rfl
  | cons x xs ih =>
    simp only [List.map_cons]
    have hx : (if x.id == botMsgId then { x with content := acc } else x) = x := by
      by_cases hb : x.id == botMsgId
      · have hc := h x (List.mem_cons_self _ _) (by simpa using hb)
        simp [hb, ← hc]
      · simp [hb]
    rw [hx, ih (fun m hm => h m (List.mem_cons_of_mem _ hm))]

theorem runOnChunksAux_eq (botMsgId : String) (texts : List String) :
    ∀ (acc : String) (ms : List Message),
      (∀ m ∈ ms, m.id = botMsgId → m.content = acc) →
      runOnChunksAux botMsgId acc texts ms
        = ms.map (fun m =>
            if m.id == botMsgId then { m with content := acc ++ concatAll texts }
            else m) := by
  induction texts with
  | nil =>
    intro acc ms h
    simp only [runOnChunksAux, concatAll, String.append_empty]
    exact (map_update_eq_self botMsgId acc ms h).symm
  | cons t ts ih =>
    intro acc ms h
    simp only [runOnChunksAux, applyChunk]
    rw [ih (acc ++ t)
      (ms.map (fun m => if m.id == botMsgId then { m with content := acc ++ t } else m))
      (by
        intro m hm hid
        rcases List.mem_map.mp hm with ⟨m0, _, rfl⟩
        by_cases hb : m0.id == botMsgId
        · simp [hb]
        · simp only [hb, if_neg] at hid ⊢
          simp at hb
          exact absurd hid (by simpa using hb))]
    rw [List.map_map]
    apply List.map_congr_left
    intro m _
    by_cases hb : m.id == botMsgId
    · simp [Function.comp, hb, concatAll, String.append_assoc]
    · simp [Function.comp, hb]

/-- C5: over any finite chunk stream, `processStream` calls `onChunk` exactly
once per chunk with non-empty text, in arrival order; and folding
`processResponse`'s `onChunk` callback over those texts sets the placeholder
bot message's content to the concatenation of all chunk texts received, while
leaving every other message unchanged. -/
theorem processResponse_accumulates (stream : List Chunk) (botMsgId : String)
    (ms : List Message)
    (hinit : ∀ m ∈ ms, m.id = botMsgId → m.content = "") :
    onChunkTexts (processStream stream)
        = (stream.filter (fun c => !c.text.isEmpty)).map Chunk.text
    ∧ runOnChunks botMsgId (onChunkTexts (processStream stream)) ms
        = ms.map (fun m =>
            if m.id == botMsgId then
              { m with content :=
                  concatAll ((stream.filter (fun c => !c.text.isEmpty)).map Chunk.text) }
            else m) := by
  constructor
  · exact onChunkTexts_processStream stream
  · rw [runOnChunks, onChunkTexts_processStream,
      runOnChunksAux_eq botMsgId _ "" ms hinit]
    simp

/-! ### Example sessions used by witnesses -/

/-- Default story settings (from App.tsx's initial state). -/
def settingsEx : StorySettings := ⟨"General Fiction", "Neutral", "Third Limited", 1⟩

def sessionA : ChatSession := ⟨"a", "Story A", [], AppMode.chat, settingsEx, 100, "pa"⟩

def sessionB : ChatSession := ⟨"b", "Story B", [], AppMode.story, settingsEx, 200, "pb"⟩

/-- A minimal session with the given timestamp (used to exercise the cap). -/
def mkSession (i : Nat) : ChatSession := ⟨"x", "T", [], AppMode.chat, settingsEx, i, "p"⟩

/-! ### Claim C3: the 50-session cap -/

/-- C3: for every previously stored list and every session argument, the list
`saveSession` writes back and returns holds at most 50 sessions. -/
theorem saveSession_cap (store : List ChatSession) (session : ChatSession) :
    (saveSession store session).length ≤ 50 := by
  rw [saveSession, List.length_take]
  exact Nat.min_le_left _ _

/-! ### Claim C6: deleteSession removes exactly the matching sessions -/

theorem count_filter_eq {α : Type} [DecidableEq α] (p : α → Bool) (l : List α) (a : α) :
    (l.filter p).count a = if p a then l.count a else 0 := by
  induction l with
  | nil => simp
  | cons x xs ih =>
    by_cases hx : p x
    · rw [List.filter_cons_of_pos hx]
      by_cases hax : x = a
      · subst hax
        simp [List.count_cons, ih, hx]
      · simp [List.count_cons_of_ne (by simpa using Ne.symm hax), ih]
    · rw [List.filter_cons_of_neg hx]
      by_cases hax : x = a
      · subst hax
        simp [ih, hx]
      · rw [List.count_cons_of_ne (by simpa using Ne.symm hax), ih]

/-- C6: `deleteSession` removes exactly the sessions whose id equals
`sessionId` — it returns a sublist of the store (so the surviving sessions
keep their values and relative order), the multiplicity of a session in the
result is zero when its id matches and unchanged otherwise, and when no
stored session has that id the store is returned unchanged. -/
theorem deleteSession_frame (store : List ChatSession) (sessionId : String) :
    List.Sublist (deleteSession store sessionId) store
    ∧ (∀ t : ChatSession, (deleteSession store sessionId).count t
        = if t.id = sessionId then 0 else store.count t)
    ∧ ((∀ t ∈ store, t.id ≠ sessionId) → deleteSession store sessionId = store) := by
  refine ⟨List.filter_sublist store, ?_, ?_⟩
  · intro t
    rw [deleteSession, count_filter_eq]
    by_cases ht : t.id = sessionId
    · simp [ht]
    · simp [ht, bne_iff_ne]
  · intro h
    rw [deleteSession]
    apply List.filter_eq_self.mpr
    intro t htm
    simpa [bne_iff_ne] using h t htm

/-- Witness for C6: deleting an id that no stored session has leaves the
store unchanged. -/
theorem deleteSession_frame_witness :
    deleteSession [sessionA, sessionB] "zzz" = [sessionA, sessionB] :=
  (deleteSession_frame [sessionA, sessionB] "zzz").2.2 (by decide)

/-! ### Claim C10: getSessions is total -/

/-- C10: `getSessions` never throws: when the stored value is absent it
returns `[]`; when parsing fails it returns `[]` (the catch branch); when the
stored value is a non-empty string parsing to a session array, it returns
that array. (The empty string is falsy in the source's ternary; it is also
never valid JSON, so the non-empty hypothesis only excludes an unparseable
input.) -/
theorem getSessions_total (parse : String → Option (List ChatSession)) :
    (getSessions parse none = [])
    ∧ (∀ str, parse str = none → getSessions parse (some str) = [])
    ∧ (∀ str l, parse str = some l → str.isEmpty = false →
        getSessions parse (some str) = l) := by
  refine ⟨rfl, ?_, ?_⟩
  · intro str h
    by_cases he : str.isEmpty
    · simp [getSessions, he]
    · simp [getSessions, he, h]
  · intro str l h he
    simp [getSessions, he, h]

/-- A concrete stand-in for `JSON.parse` recognising one stored value. -/
def parseEx : String → Option (List ChatSession) := fun str =>
  if str = "stored" then some [sessionA] else none

/-- Witness for C10: a present, parseable value is returned as parsed. -/
theorem getSessions_total_witness :
    getSessions parseEx (some "stored") = [sessionA] :=
  (getSessions_total parseEx).2.2 "stored" [sessionA] (by decide) (by decide)

/-! ### Witness for C5 -/

def msgUser : Message := ⟨"u1", Role.user, "Hi", false, false, []⟩

def msgBotPlaceholder : Message := ⟨"bot", Role.model, "", true, false, []⟩

def streamEx : List Chunk := [⟨"Hello", none⟩, ⟨"", none⟩, ⟨" world", none⟩]

/-- Witness for C5 on a concrete three-chunk stream (one chunk empty): the
placeholder message receives the concatenation of the two non-empty texts,
the user message is untouched. -/
theorem processResponse_accumulates_witness :
    runOnChunks "bot" (onChunkTexts (processStream streamEx)) [msgUser, msgBotPlaceholder]
      = [msgUser, msgBotPlaceholder].map (fun m =>
          if m.id == "bot" then
            { m with content :=
                concatAll ((streamEx.filter (fun c => !c.text.isEmpty)).map Chunk.text) }
          else m) :=
  (processResponse_accumulates streamEx "bot" [msgUser, msgBotPlaceholder]
    (by decide)).2

/-! ### Claim C9: saveSession is an id-unique upsert -/

theorem replaceFirst_decomp (store : List ChatSession) (s : ChatSession)
    (hex : ∃ t ∈ store, t.id = s.id) :
    ∃ pre post t, store = pre ++ t :: post ∧ t.id = s.id
      ∧ (∀ u ∈ pre, u.id ≠ s.id) ∧ replaceFirst store s = pre ++ s :: post := by
  induction store with
  | nil =>
    rcases hex with ⟨t, ht, _⟩
    cases ht
  | cons x xs ih =>
    by_cases hx : x.id = s.id
    · exact ⟨[], xs, x, rfl, hx, by simp, by simp [replaceFirst, hx]⟩
    · have hex' : ∃ t ∈ xs, t.id = s.id := by
        rcases hex with ⟨t, ht, hts⟩
        rcases List.mem_cons.mp ht with rfl | htxs
        · exact absurd hts hx
        · exact ⟨t, htxs, hts⟩
      rcases ih hex' with ⟨pre, post, t, hstore, hts, hpre, hrep⟩
      refine ⟨x :: pre, post, t, by simp [hstore], hts, ?_, ?_⟩
      · intro u hu
        rcases List.mem_cons.mp hu with rfl | hupre
        · exact hx
        · exact hpre u hupre
      · simp only [replaceFirst, beq_iff_eq, if_neg hx, hrep, List.cons_append]

theorem upsert_found (store : List ChatSession) (s : ChatSession)
    (hex : ∃ t ∈ store, t.id = s.id) :
    ∃ pre post t, store = pre ++ t :: post ∧ t.id = s.id
      ∧ (∀ u ∈ pre, u.id ≠ s.id) ∧ upsert store s = pre ++ s :: post := by
  have hany : store.any (fun t => t.id == s.id) = true := by
    rcases hex with ⟨t, ht, hts⟩
    exact List.any_eq_true.mpr ⟨t, ht, by simpa using hts⟩
  rcases replaceFirst_decomp store s hex with ⟨pre, post, t, h1, h2, h3, h4⟩
  exact ⟨pre, post, t, h1, h2, h3, by rw [upsert, if_pos hany]; exact h4⟩

theorem upsert_not_found (store : List ChatSession) (s : ChatSession)
    (hnone : ∀ t ∈ store, t.id ≠ s.id) :
    upsert store s = s :: store := by
  rw [upsert, if_neg]
  simp only [List.any_eq_true, not_exists, not_and, Bool.not_eq_true, beq_eq_false_iff_ne]
  intro t ht
  exact hnone t ht

theorem upsert_ids_nodup (store : List ChatSession) (s : ChatSession)
    (h : (store.map ChatSession.id).Nodup) :
    ((upsert store s).map ChatSession.id).Nodup := by
  by_cases hex : ∃ t ∈ store, t.id = s.id
  · rcases upsert_found store s hex with ⟨pre, post, t, hstore, hts, _, hup⟩
    rw [hup]
    have : (pre ++ s :: post).map ChatSession.id = (pre ++ t :: post).map ChatSession.id := by
      simp [hts]
    rw [this, ← hstore]
    exact h
  · push_neg at hex
    rw [upsert_not_found store s hex]
    simp only [List.map_cons, List.nodup_cons]
    refine ⟨?_, h⟩
    intro hmem
    rcases List.mem_map.mp hmem with ⟨t, ht, hid⟩
    exact hex t ht hid

/-- C9: `saveSession` is an id-unique upsert: starting from a store with
pairwise-distinct session ids, the list it writes back still has
pairwise-distinct ids; a stored session sharing the new session's id is
replaced in place rather than duplicated, and otherwise the new session is
prepended as a new entry. -/
theorem saveSession_upsert_unique (store : List ChatSession) (s : ChatSession)
    (h : (store.map ChatSession.id).Nodup) :
    ((saveSession store s).map ChatSession.id).Nodup
    ∧ ((∃ t ∈ store, t.id = s.id) →
        ∃ pre post t, store = pre ++ t :: post ∧ t.id = s.id
          ∧ (∀ u ∈ pre, u.id ≠ s.id) ∧ upsert store s = pre ++ s :: post)
    ∧ ((∀ t ∈ store, t.id ≠ s.id) → upsert store s = s :: store) := by
  refine ⟨?_, upsert_found store s, upsert_not_found store s⟩
  have h1 : ((upsert store s).map ChatSession.id).Nodup := upsert_ids_nodup store s h
  have h2 : ((sortByNewest (upsert store s)).map ChatSession.id).Nodup := by
    have hperm : List.Perm (sortByNewest (upsert store s)) (upsert store s) :=
      List.perm_insertionSort newerEq (upsert store s)
    exact (hperm.map ChatSession.id).nodup_iff.mpr h1
  rw [saveSession, List.map_take]
  exact h2.sublist (List.take_sublist 50 _)

/-- Witness for C9: saving a session with a fresh id prepends it. -/
theorem saveSession_upsert_unique_witness :
    upsert [sessionA] sessionB = sessionB :: [sessionA] :=
  (saveSession_upsert_unique [sessionA] sessionB (by decide)).2.2 (by decide)

/-! ### Claim C8: the saved list is sorted newest-first -/

theorem sortByNewest_pairwise (l : List ChatSession) :
    (sortByNewest l).Pairwise (fun a b => b.updatedAt ≤ a.updatedAt) :=
  List.sorted_insertionSort newerEq l

/-- C8: the list `saveSession` returns and writes is sorted by `updatedAt`
descending (newest first); the kept and discarded sessions together are
exactly the upserted store, and every discarded session's `updatedAt` is at
most that of every kept session — so when the 50-session cap applies, the
sessions discarded are the oldest ones. -/
theorem saveSession_sorted_newest (store : List ChatSession) (s : ChatSession) :
    (saveSession store s).Pairwise (fun a b => b.updatedAt ≤ a.updatedAt)
    ∧ List.Perm (saveSession store s ++ (sortByNewest (upsert store s)).drop 50)
        (upsert store s)
    ∧ (∀ dropped ∈ (sortByNewest (upsert store s)).drop 50,
        ∀ kept ∈ saveSession store s, dropped.updatedAt ≤ kept.updatedAt) := by
  have hpw := sortByNewest_pairwise (upsert store s)
  have hsplit : sortByNewest (upsert store s)
      = saveSession store s ++ (sortByNewest (upsert store s)).drop 50 := by
    rw [saveSession, List.take_append_drop]
  refine ⟨?_, ?_, ?_⟩
  · rw [saveSession]
    exact hpw.sublist (List.take_sublist 50 _)
  · rw [← hsplit]
    exact List.perm_insertionSort newerEq (upsert store s)
  · rw [hsplit] at hpw
    have h3 := (List.pairwise_append.mp hpw).2.2
    intro dropped hd kept hk
    exact h3 kept hk dropped hd

/-- A 52-session store with timestamps `0, 1, ..., 51`. -/
def storeBig : List ChatSession := (List.range 52).map mkSession

/-- Witness for C8: saving `mkSession 100` into the 52-session store
overflows the cap, and a discarded session (timestamp 1) is no newer than a
kept one (timestamp 100). -/
theorem saveSession_sorted_newest_witness :
    (mkSession 1).updatedAt ≤ (mkSession 100).updatedAt :=
  (saveSession_sorted_newest storeBig (mkSession 100)).2.2
    (mkSession 1) (by decide) (mkSession 100) (by decide)

/-! ### Claim C4: save-then-read round-trips -/

theorem replaceFirst_filter_id (store : List ChatSession) (s : ChatSession)
    (hany : store.any (fun t => t.id == s.id) = true)
    (hid : (store.filter (fun t => t.id == s.id)).length ≤ 1) :
    (replaceFirst store s).filter (fun t => t.id == s.id) = [s] := by
  induction store with
  | nil => simp at hany
  | cons x xs ih =>
    by_cases hx : x.id = s.id
    · rw [replaceFirst, if_pos (by simpa using hx)]
      rw [List.filter_cons_of_pos (by simpa using hx)] at hid
      rw [List.filter_cons_of_pos (by simp)]
      have hnil : xs.filter (fun t => t.id == s.id) = [] := by
        rw [← List.length_eq_zero]
        simp only [List.length_cons] at hid
        omega
      rw [hnil]
    · rw [replaceFirst, if_neg (by simpa using hx)]
      have hany' : xs.any (fun t => t.id == s.id) = true := by
        rcases List.any_eq_true.mp hany with ⟨t, ht, htid⟩
        rcases List.mem_cons.mp ht with rfl | h2
        · exact absurd (by simpa using htid) hx
        · exact List.any_eq_true.mpr ⟨t, h2, htid⟩
      rw [List.filter_cons_of_neg (by simpa using hx)] at hid
      rw [List.filter_cons_of_neg (by simpa using hx)]
      exact ih hany' hid

theorem upsert_filter_id (store : List ChatSession) (s : ChatSession)
    (hid : (store.filter (fun t => t.id == s.id)).length ≤ 1) :
    (upsert store s).filter (fun t => t.id == s.id) = [s] := by
  cases hany : store.any (fun t => t.id == s.id) with
  | true =>
    rw [upsert, if_pos hany]
    exact replaceFirst_filter_id store s hany hid
  | false =>
    rw [upsert, if_neg (by simp [hany])]
    rw [List.filter_cons_of_pos (by simp)]
    have hnil : store.filter (fun t => t.id == s.id) = [] := by
      apply List.filter_eq_nil_iff.mpr
      intro t ht
      have := List.any_eq_false.mp hany t ht
      simpa using this
    rw [hnil]

theorem filter_eq_singleton_decomp (p : ChatSession → Bool) (l : List ChatSession)
    (a : ChatSession) (h : l.filter p = [a]) :
    ∃ pre post, l = pre ++ a :: post
      ∧ (∀ x ∈ pre, p x = false) ∧ (∀ x ∈ post, p x = false) := by
  induction l with
  | nil => simp at h
  | cons x xs ih =>
    cases hx : p x with
    | true =>
      rw [List.filter_cons_of_pos hx] at h
      rcases List.cons_eq_cons.mp h with ⟨rfl, htl⟩
      refine ⟨[], xs, rfl, by simp, ?_⟩
      intro y hy
      have := List.filter_eq_nil_iff.mp htl y hy
      simpa using this
    | false =>
      rw [List.filter_cons_of_neg (by simp [hx])] at h
      rcases ih h with ⟨pre, post, hdec, hpre, hpost⟩
      refine ⟨x :: pre, post, by simp [hdec], ?_, hpost⟩
      intro y hy
      rcases List.mem_cons.mp hy with rfl | h2
      · exact hx
      · exact hpre y h2

theorem find?_append_of_false (p : ChatSession → Bool) (l1 l2 : List ChatSession)
    (h : ∀ x ∈ l1, p x = false) :
    (l1 ++ l2).find? p = l2.find? p := by
  induction l1 with
  | nil => rfl
  | cons x xs ih =>
    rw [List.cons_append,
      List.find?_cons_of_neg _ (by simp [h x (List.mem_cons_self _ _)])]
    exact ih (fun y hy => h y (List.mem_cons_of_mem _ hy))

/-- C4: saving then reading round-trips. If at most one stored session has
the new session's id (so no *other* stored session shares it), and at most 50
sessions of the upserted store are at least as new as it (it ranks within the
50 newest), then after `saveSession s` a `getSessionById s.id` returns `s`. -/
theorem saveSession_getSessionById (store : List ChatSession) (s : ChatSession)
    (hid : (store.filter (fun t => t.id == s.id)).length ≤ 1)
    (hrank : ((upsert store s).filter
        (fun t => decide (s.updatedAt ≤ t.updatedAt))).length ≤ 50) :
    getSessionById (saveSession store s) s.id = some s := by
  have hfL : (upsert store s).filter (fun t => t.id == s.id) = [s] :=
    upsert_filter_id store s hid
  have hperm : List.Perm (sortByNewest (upsert store s)) (upsert store s) :=
    List.perm_insertionSort newerEq (upsert store s)
  have hfS : (sortByNewest (upsert store s)).filter (fun t => t.id == s.id) = [s] := by
    have hp := hperm.filter (fun t => t.id == s.id)
    rw [hfL] at hp
    exact List.perm_singleton.mp hp
  rcases filter_eq_singleton_decomp _ _ _ hfS with ⟨pre, post, hdecomp, hpre, hpost⟩
  have hpw := sortByNewest_pairwise (upsert store s)
  rw [hdecomp] at hpw
  have hge : ∀ x ∈ pre, s.updatedAt ≤ x.updatedAt := by
    have h3 := (List.pairwise_append.mp hpw).2.2
    intro x hx
    exact h3 x hx s (List.mem_cons_self _ _)
  have hlenpre : pre.length + 1 ≤ 50 := by
    have hcount : ((sortByNewest (upsert store s)).filter
          (fun t => decide (s.updatedAt ≤ t.updatedAt))).length
        = ((upsert store s).filter
          (fun t => decide (s.updatedAt ≤ t.updatedAt))).length :=
      (hperm.filter _).length_eq
    rw [hdecomp, List.filter_append,
      List.filter_eq_self.mpr (fun x hx => by simpa using hge x hx),
      List.filter_cons_of_pos (by simp), List.length_append, List.length_cons] at hcount
    omega
  have htake : (sortByNewest (upsert store s)).take 50
      = pre ++ s :: post.take (50 - pre.length - 1) := by
    rw [hdecomp, List.take_append_eq_append_take, List.take_of_length_le (by omega)]
    congr 1
    have h50 : 50 - pre.length = (50 - pre.length - 1) + 1 := by omega
    rw [h50, List.take_succ_cons, Nat.add_sub_cancel]
  rw [getSessionById, saveSession, htake,
    find?_append_of_false _ pre _ hpre,
    List.find?_cons_of_pos _ (by simp)]

/-- Witness for C4: saving a fresh session into a one-session store and
reading it back by id returns it. -/
theorem saveSession_getSessionById_witness :
    getSessionById (saveSession [sessionA] sessionB) sessionB.id = some sessionB :=
  saveSession_getSessionById [sessionA] sessionB (by decide) (by decide)

end InkWeaver
